import Mathlib

/-!
Verification development for the retrieval-and-routing pipeline of a
conversational shopping-assistant backend.  The definitions below are a
shallow embedding of the Python source files
backend/app/embeddings.py, backend/app/retrieval.py, backend/app/agent.py
and backend/app/state.py.  Machine floats of the source are modelled as
rationals; the cosine-similarity kernel (a numpy computation delegated to
an external numeric library) is abstracted as a function parameter, since
every property proved here holds for an arbitrary scoring function.
-/

namespace Palona

/-! ## Character-list helpers (Python string operations) -/

/-- Whitespace test used by the Python `str.strip` and `str.lower` pipeline. -/
def isWs (c : Char) : Bool := c.isWhitespace

/-- Python `s.lower()` on a string modelled as a list of characters. -/
def toLowerChars (s : List Char) : List Char := s.map Char.toLower

/-- Python `s.upper()` on a string modelled as a list of characters. -/
def toUpperChars (s : List Char) : List Char := s.map Char.toUpper

/-- Python `s.strip()`: drop leading and trailing whitespace. -/
def trimChars (s : List Char) : List Char :=
  ((s.dropWhile isWs).reverse.dropWhile isWs).reverse

/-- Python substring test `needle in hay`. -/
def containsSub (needle : List Char) : List Char → Bool
  | [] => needle.isEmpty
  | c :: rest => needle.isPrefixOf (c :: rest) || containsSub needle rest

/-- Python `s.split(sep)[0]` for a one-character separator: the characters
before the first occurrence of the separator. -/
def beforeChar (sep : Char) (s : List Char) : List Char :=
  s.takeWhile (fun c => c ≠ sep)

/-- The needle occurs contiguously inside the hay. -/
def OccursIn (needle hay : List Char) : Prop :=
  ∃ pre post, hay = pre ++ needle ++ post

/-! ## Data model -/

/-- Catalog product record.  Only the id participates in retrieval; the
name field keeps distinct records distinguishable. -/
structure Product where
  id : String
  name : String := ""
deriving DecidableEq, Repr

/-- Embedding vector (source: list of floats, modelled over the rationals). -/
abbrev Emb := List ℚ

/-! ## embeddings.py : search_products -/

/-- RELEVANCE_THRESHOLD = 0.35 from embeddings.py. -/
def RELEVANCE_THRESHOLD : ℚ := 7/20

/-- The scoring step of the loop body of `search_products` in
embeddings.py: an item with no precomputed vector yields no entry, an
item scoring below `min_score` yields no entry, otherwise the pair of
score and product is kept. -/
def scoreEntry (sim : Emb → Emb → ℚ) (query_emb : Emb)
    (precomputed : String → Option Emb) (min_score : ℚ)
    (p : Product) : Option (ℚ × Product) :=
  match precomputed p.id with
  | none => none
  | some emb =>
      let score := sim query_emb emb
      if min_score ≤ score then some (score, p) else none

/-- Embedding of `search_products` from embeddings.py.  The query
embedding (an external API call in the source) and the similarity kernel
`sim` (float cosine similarity in the source) are parameters; the
precomputed id-to-vector table is the function `precomputed`.  The source
scores every catalog item having a precomputed vector, keeps scores at or
above `min_score`, stably sorts by descending score (Python `list.sort`
with `reverse=True` is a stable descending sort) and returns the first
`top_k` products. -/
def search_products (sim : Emb → Emb → ℚ) (query_emb : Emb)
    (precomputed : String → Option Emb) (catalog : List Product)
    (top_k : Nat) (min_score : ℚ) : List Product :=
  let scored : List (ℚ × Product) :=
    catalog.filterMap (scoreEntry sim query_emb precomputed min_score)
  let sorted := scored.mergeSort (fun a b => decide (b.1 ≤ a.1))
  (sorted.take top_k).map (fun x => x.2)

/-- Score a product carries in a ranking pass (zero only as an unused
default for items with no precomputed vector, which never enter ranking). -/
def scoreOf (sim : Emb → Emb → ℚ) (query_emb : Emb)
    (precomputed : String → Option Emb) (p : Product) : ℚ :=
  match precomputed p.id with
  | none => 0
  | some emb => sim query_emb emb

/-! ## retrieval.py : _search_chroma -/

/-- Python `distances[i] if i < len(distances) else 0`. -/
def distAt (distances : List ℚ) (i : Nat) : ℚ := (distances.get? i).getD 0

/-- Python `metadatas_list[i] if i < len(metadatas_list) else empty-dict`;
each metadata dict is modelled by its optional product_id entry. -/
def metaAt (metas : List (Option String)) (i : Nat) : Option String :=
  (metas.get? i).getD none

/-- Python `meta.get("product_id") or pid`: the metadata product id unless
it is missing or falsy (empty). -/
def lookupKey (pid : String) (meta : Option String) : String :=
  match meta with
  | some s => if s = "" then pid else s
  | none => pid

/-- Python dict comprehension `p.get("id"): p for p in catalog if p.get("id")`:
items with falsy id are skipped and a later entry overwrites an earlier one,
so lookup finds the last matching item with a non-empty id. -/
def productById (catalog : List Product) (key : String) : Option Product :=
  ((catalog.filter (fun p => p.id ≠ "")).reverse).find? (fun p => p.id = key)

/-- The result-assembly loop of `_search_chroma` over the enumerated ids
returned by the index: stop once `top_k` results are collected, skip
entries with cosine distance above 0.65 (= 1 - 0.35), look the id up in
the catalog and append the product when found. -/
def chromaGo (byId : String → Option Product) (top_k : Nat)
    (distances : List ℚ) (metas : List (Option String)) :
    List (Nat × String) → List Product → List Product
  | [], out => out
  | (i, pid) :: rest, out =>
    if top_k ≤ out.length then out
    else
      let dist := distAt distances i
      if 13/20 < dist then chromaGo byId top_k distances metas rest out
      else
        match byId (lookupKey pid (metaAt metas i)) with
        | some p => chromaGo byId top_k distances metas rest (out ++ [p])
        | none => chromaGo byId top_k distances metas rest out

/-- Embedding of `_search_chroma` from retrieval.py.  The external index
reply is the triple of id, distance and metadata columns. -/
def search_chroma (catalog : List Product) (top_k : Nat)
    (ids_seen : List String) (distances : List ℚ)
    (metas : List (Option String)) : List Product :=
  (chromaGo (productById catalog) top_k distances metas ids_seen.enum []).take top_k

/-! ## agent.py : intent detection, follow-up detection, query heuristic -/

/-- The three intents of agent.py. -/
inductive Intent where
  | CHAT
  | SEARCH
  | IMAGE_SEARCH
deriving DecidableEq, Repr

/-- Embedding of `detect_intent` from agent.py.  The completion
collaborator is the parameter `reply` (the single classification call);
with an image no call is made.  The source upper-cases and strips the
reply and tests for the substring SEARCH. -/
def detect_intent (reply : List Char → List Char)
    (message : List Char) (has_image : Bool) : Intent :=
  if has_image then Intent.IMAGE_SEARCH
  else
    let prompt := if message.isEmpty then "hello".toList else message
    let result := trimChars (toUpperChars (reply prompt))
    if containsSub "SEARCH".toList result then Intent.SEARCH else Intent.CHAT

/-- The fixed follow-up reference phrases of `_is_follow_up` in agent.py. -/
def follow_up_phrases : List (List Char) :=
  ["first one", "second one", "third one", "that one", "this one",
   "the first", "the second", "compare them", "tell me more", "more about",
   "what about that", "how about that", "between them", "which one", "the difference",
   "compare the", "tell me about the first", "tell me about the second"].map
   (fun s => s.toList)

/-- Embedding of `_is_follow_up` from agent.py. -/
def is_follow_up (message : List Char) (previous_products : List Product) : Bool :=
  if previous_products.isEmpty then false
  else
    let msg := trimChars (toLowerChars message)
    follow_up_phrases.any (fun p => containsSub p msg)

/-- The fixed question words of the comma-split heuristic in
`process_message` (agent.py). -/
def questionWords : List (List Char) :=
  ["how", "what", "reviews", "ratings", "specs", "compare"].map (fun s => s.toList)

/-- The comma-split pre-filtering heuristic of `process_message`
(agent.py lines 103-110): when the query contains a comma and any of the
question words occurs in its lower-cased form, and the stripped text
before the first comma is longer than 10 characters, that stripped prefix
replaces the query. -/
def refineQuery (query : List Char) : List Char :=
  if containsSub [','] query
      && questionWords.any (fun w => containsSub w (toLowerChars query)) then
    let before_comma := trimChars (beforeChar ',' query)
    if 10 < before_comma.length then before_comma else query
  else query

/-- Product selection of the SEARCH / IMAGE_SEARCH branch of
`process_message` (agent.py lines 78-110).  The retrieval engine is the
parameter `searchFn` (applied to the refined query with top_k = 5), the
vision collaborator output is `image_desc`.  On a textual follow-up
against previous products, retrieval is bypassed and the first five
previous products are reused. -/
def selectProducts (searchFn : List Char → List Product)
    (message : List Char) (has_image : Bool) (image_desc : List Char)
    (previous_products : List Product) : List Product :=
  let search_query := if has_image then image_desc else message
  let query := if search_query.isEmpty then message else search_query
  let use_previous := !has_image && is_follow_up message previous_products
  if use_previous then previous_products.take 5
  else searchFn (refineQuery query)

/-! ## state.py : session store -/

/-- One chat turn stored in a session. -/
structure ChatMsg where
  role : String
  content : String
deriving DecidableEq, Repr

/-- Per-session state: message history and last product list. -/
structure SessionState where
  messages : List ChatMsg
  products : List Product
deriving DecidableEq, Repr

/-- The module-level `_sessions` dict of state.py, keyed by session id
(a string, modelled as a list of characters so that the Python `strip`
on ids is the executable `trimChars`). -/
abbrev Store := List Char → Option SessionState

/-- MAX_MESSAGES = 20 from state.py. -/
def MAX_MESSAGES : Nat := 20

/-- MAX_PRODUCTS = 10 from state.py. -/
def MAX_PRODUCTS : Nat := 10

/-- Python negative slice `l[-n:]`: the last n elements. -/
def lastN (n : Nat) (l : List α) : List α := l.drop (l.length - n)

/-- The fresh empty state registered for a new session. -/
def emptyState : SessionState := { messages := [], products := [] }

/-- Embedding of `get_or_create_session` from state.py.  The uuid4 call is
the parameter `fresh_id`.  A missing or blank id registers an empty state
under the fresh id; otherwise the stripped id is looked up and an unknown
id is registered with an empty state. -/
def get_or_create_session (fresh_id : List Char) (store : Store)
    (session_id : Option (List Char)) : List Char × SessionState × Store :=
  if (session_id.getD []).isEmpty || (trimChars (session_id.getD [])).isEmpty then
    (fresh_id, emptyState,
      fun s => if s = fresh_id then some emptyState else store s)
  else
    let sid := trimChars (session_id.getD [])
    match store sid with
    | none => (sid, emptyState, fun s => if s = sid then some emptyState else store s)
    | some st => (sid, st, store)

/-- Embedding of `update_session` from state.py: a falsy or unregistered
id is a no-op; otherwise the optional user and assistant turns are
appended in that order, the history is truncated to the last
MAX_MESSAGES entries, and a supplied product list replaces the stored one
truncated to MAX_PRODUCTS. -/
def update_session (store : Store) (session_id : List Char)
    (user_message assistant_message : Option String)
    (products : Option (List Product)) : Store :=
  if session_id.isEmpty then store
  else
    match store session_id with
    | none => store
    | some s =>
      let ms := s.messages ++ (user_message.map (fun u => ChatMsg.mk "user" u)).toList
      let ms := ms ++ (assistant_message.map (fun a => ChatMsg.mk "assistant" a)).toList
      let newState : SessionState :=
        { messages := lastN MAX_MESSAGES ms
          products := match products with
            | some ps => ps.take MAX_PRODUCTS
            | none => s.products }
      fun sid => if sid = session_id then some newState else store sid

/-- n successive `update_session` calls on one session, the i-th call
carrying the user/assistant pair `f i`. -/
def iterPairUpdates (store : Store) (sid : List Char)
    (f : Nat → String × String) : Nat → Store
  | 0 => store
  | n + 1 =>
    update_session (iterPairUpdates store sid f n) sid
      (some (f n).1) (some (f n).2) none

/-- The full history produced by n user/assistant pairs, oldest first. -/
def pairMsgs (f : Nat → String × String) (n : Nat) : List ChatMsg :=
  (List.range n).flatMap
    (fun i => [ChatMsg.mk "user" (f i).1, ChatMsg.mk "assistant" (f i).2])

/-! ## String lemmas -/

theorem isPrefixOf_iff_exists :
    ∀ (n h : List Char), n.isPrefixOf h = true ↔ ∃ post, h = n ++ post
  | [], h => by simp [List.isPrefixOf]
  | a :: n, [] => by simp [List.isPrefixOf]
  | a :: n, b :: h => by
    simp only [List.isPrefixOf, Bool.and_eq_true, beq_iff_eq,
      isPrefixOf_iff_exists n h, List.cons_append, List.cons.injEq]
    constructor
    · rintro ⟨rfl, post, rfl⟩
      exact ⟨post, rfl, rfl⟩
    · rintro ⟨post, rfl, rfl⟩
      exact ⟨rfl, post, rfl⟩

theorem containsSub_iff (n : List Char) :
    ∀ h : List Char, containsSub n h = true ↔ OccursIn n h := by
  intro h
  induction h with
  | nil =>
    simp only [containsSub, List.isEmpty_iff, OccursIn]
    constructor
    · rintro rfl
      exact ⟨[], [], rfl⟩
    · rintro ⟨pre, post, hp⟩
      cases pre <;> simp_all
  | cons c rest ih =>
    simp only [containsSub, Bool.or_eq_true, isPrefixOf_iff_exists, ih]
    constructor
    · rintro (⟨post, hp⟩ | ⟨pre, post, hp⟩)
      · exact ⟨[], post, by simp [hp]⟩
      · exact ⟨c :: pre, post, by simp [hp]⟩
    · rintro ⟨pre, post, hp⟩
      cases pre with
      | nil => exact Or.inl ⟨post, by simpa using hp⟩
      | cons d pre =>
        refine Or.inr ⟨pre, post, ?_⟩
        have := congrArg List.tail hp
        simpa using this

theorem occursIn_reverse {n h : List Char} :
    OccursIn n.reverse h.reverse ↔ OccursIn n h := by
  constructor
  · rintro ⟨pre, post, hp⟩
    refine ⟨post.reverse, pre.reverse, ?_⟩
    have := congrArg List.reverse hp
    simpa [List.reverse_append, List.append_assoc] using this
  · rintro ⟨pre, post, rfl⟩
    exact ⟨post.reverse, pre.reverse, by simp [List.reverse_append, List.append_assoc]⟩

theorem occursIn_of_occursIn_dropWhile {n h : List Char}
    (hocc : OccursIn n (h.dropWhile isWs)) : OccursIn n h := by
  rcases hocc with ⟨pre, post, hp⟩
  refine ⟨h.takeWhile isWs ++ pre, post, ?_⟩
  conv_lhs => rw [← List.takeWhile_append_dropWhile (p := isWs) (l := h)]
  rw [hp]
  simp [List.append_assoc]

theorem occursIn_dropWhile_of_occursIn {n : List Char}
    (hne : n ≠ []) (hws : ∀ c ∈ n, isWs c = false) :
    ∀ {h : List Char}, OccursIn n h → OccursIn n (h.dropWhile isWs) := by
  intro h
  induction h with
  | nil => exact fun hocc => hocc
  | cons c rest ih =>
    rintro ⟨pre, post, hp⟩
    by_cases hc : isWs c = true
    · rw [List.dropWhile_cons_of_pos hc]
      cases pre with
      | nil =>
        exfalso
        cases n with
        | nil => exact hne rfl
        | cons a n' =>
          have hca : c = a := by
            have := congrArg List.head? hp
            simpa using this
          have hfa : isWs a = false := hws a (List.mem_cons_self a n')
          rw [hca, hfa] at hc
          exact Bool.false_ne_true hc
      | cons d pre' =>
        refine ih ⟨pre', post, ?_⟩
        have := congrArg List.tail hp
        simpa using this
    · rw [List.dropWhile_cons_of_neg hc]
      exact ⟨pre, post, hp⟩

theorem occursIn_trimChars {n : List Char}
    (hne : n ≠ []) (hws : ∀ c ∈ n, isWs c = false) (h : List Char) :
    OccursIn n (trimChars h) ↔ OccursIn n h := by
  have hner : n.reverse ≠ [] := by simpa using hne
  have hwsr : ∀ c ∈ n.reverse, isWs c = false := by
    intro c hc
    exact hws c (List.mem_reverse.mp hc)
  unfold trimChars
  constructor
  · intro hocc
    have h1 : OccursIn n.reverse ((h.dropWhile isWs).reverse.dropWhile isWs) := by
      have := occursIn_reverse.mpr hocc
      simpa using this
    have h2 : OccursIn n.reverse (h.dropWhile isWs).reverse :=
      occursIn_of_occursIn_dropWhile h1
    have h3 : OccursIn n (h.dropWhile isWs) := by
      have := occursIn_reverse (n := n) (h := h.dropWhile isWs)
      rw [← this]
      exact h2
    exact occursIn_of_occursIn_dropWhile h3
  · intro hocc
    have h1 : OccursIn n (h.dropWhile isWs) :=
      occursIn_dropWhile_of_occursIn hne hws hocc
    have h2 : OccursIn n.reverse (h.dropWhile isWs).reverse := by
      have := occursIn_reverse (n := n) (h := h.dropWhile isWs)
      rw [this]
      exact h1
    have h3 : OccursIn n.reverse ((h.dropWhile isWs).reverse.dropWhile isWs) :=
      occursIn_dropWhile_of_occursIn hner hwsr h2
    have := occursIn_reverse.mpr h3
    simpa using this

theorem containsSub_trimChars {n : List Char}
    (hne : n ≠ []) (hws : ∀ c ∈ n, isWs c = false) (h : List Char) :
    containsSub n (trimChars h) = containsSub n h := by
  rw [Bool.eq_iff_iff, containsSub_iff, containsSub_iff]
  exact occursIn_trimChars hne hws h

/-! ## Retrieval lemmas -/

theorem search_products_eq (sim : Emb → Emb → ℚ) (query_emb : Emb)
    (precomputed : String → Option Emb) (catalog : List Product)
    (top_k : Nat) (min_score : ℚ) :
    search_products sim query_emb precomputed catalog top_k min_score =
      (((catalog.filterMap (scoreEntry sim query_emb precomputed min_score)).mergeSort
          (fun a b => decide (b.1 ≤ a.1))).take top_k).map (fun x => x.2) := rfl

theorem scoreEntry_eq_some {sim : Emb → Emb → ℚ} {query_emb : Emb}
    {precomputed : String → Option Emb} {min_score : ℚ} {p : Product}
    {x : ℚ × Product}
    (h : scoreEntry sim query_emb precomputed min_score p = some x) :
    ∃ emb, precomputed p.id = some emb ∧
      x = (sim query_emb emb, p) ∧ min_score ≤ sim query_emb emb := by
  unfold scoreEntry at h
  cases hpre : precomputed p.id with
  | none => rw [hpre] at h; cases h
  | some emb =>
    rw [hpre] at h
    change (if min_score ≤ sim query_emb emb then
        some (sim query_emb emb, p) else none) = some x at h
    by_cases hle : min_score ≤ sim query_emb emb
    · rw [if_pos hle] at h
      cases h
      exact ⟨emb, rfl, rfl, hle⟩
    · rw [if_neg hle] at h
      cases h

theorem scoreEntry_eq_none {sim : Emb → Emb → ℚ} {query_emb : Emb}
    {precomputed : String → Option Emb} {min_score : ℚ} {p : Product}
    (h : precomputed p.id = none) :
    scoreEntry sim query_emb precomputed min_score p = none := by
  unfold scoreEntry
  rw [h]

theorem mem_scored {sim : Emb → Emb → ℚ} {query_emb : Emb}
    {precomputed : String → Option Emb} {min_score : ℚ}
    {catalog : List Product} {x : ℚ × Product}
    (hx : x ∈ catalog.filterMap (scoreEntry sim query_emb precomputed min_score)) :
    x.1 = scoreOf sim query_emb precomputed x.2 ∧ min_score ≤ x.1 ∧ x.2 ∈ catalog := by
  obtain ⟨p, hp, hfp⟩ := List.mem_filterMap.mp hx
  obtain ⟨emb, hpre, hxval, hle⟩ := scoreEntry_eq_some hfp
  subst hxval
  refine ⟨?_, hle, hp⟩
  simp [scoreOf, hpre]

theorem filterMap_eq_filterMap_filter {α β : Type} (f : α → Option β)
    (g : α → Bool) (h : ∀ a, g a = false → f a = none) :
    ∀ l : List α, l.filterMap f = (l.filter g).filterMap f := by
  intro l
  induction l with
  | nil => rfl
  | cons a l ih =>
    cases hg : g a with
    | true => simp [List.filter_cons, hg, List.filterMap_cons, ih]
    | false => simp [List.filter_cons, hg, List.filterMap_cons, h a hg, ih]

theorem map_snd_filterMap_sublist {α β : Type} (f : α → Option (β × α))
    (hf : ∀ a x, f a = some x → x.2 = a) :
    ∀ l : List α, ((l.filterMap f).map (fun x => x.2)).Sublist l := by
  intro l
  induction l with
  | nil => simp
  | cons a l ih =>
    cases hfa : f a with
    | none =>
      rw [List.filterMap_cons, hfa]
      exact ih.cons a
    | some x =>
      rw [List.filterMap_cons, hfa, List.map_cons, hf a x hfa]
      exact ih.cons₂ a

theorem chromaGo_mem_cases (byId : String → Option Product) (top_k : Nat)
    (distances : List ℚ) (metas : List (Option String)) :
    ∀ (pairs : List (Nat × String)) (out : List Product) (p : Product),
      p ∈ chromaGo byId top_k distances metas pairs out →
      p ∈ out ∨ ∃ i pid, (i, pid) ∈ pairs ∧ distAt distances i ≤ 13/20 ∧
        byId (lookupKey pid (metaAt metas i)) = some p := by
  intro pairs
  induction pairs with
  | nil =>
    intro out p hp
    exact Or.inl hp
  | cons hd rest ih =>
    obtain ⟨i, pid⟩ := hd
    intro out p hp
    rw [chromaGo] at hp
    by_cases hfull : top_k ≤ out.length
    · rw [if_pos hfull] at hp
      exact Or.inl hp
    · rw [if_neg hfull] at hp
      by_cases hdist : 13/20 < distAt distances i
      · rw [if_pos hdist] at hp
        rcases ih out p hp with h | ⟨i', pid', hmem, hle, hby⟩
        · exact Or.inl h
        · exact Or.inr ⟨i', pid', List.mem_cons_of_mem _ hmem, hle, hby⟩
      · rw [if_neg hdist] at hp
        cases hby : byId (lookupKey pid (metaAt metas i)) with
        | none =>
          rw [hby] at hp
          rcases ih out p hp with h | ⟨i', pid', hmem, hle, hby'⟩
          · exact Or.inl h
          · exact Or.inr ⟨i', pid', List.mem_cons_of_mem _ hmem, hle, hby'⟩
        | some q =>
          rw [hby] at hp
          rcases ih (out ++ [q]) p hp with h | ⟨i', pid', hmem, hle, hby'⟩
          · rcases List.mem_append.mp h with h' | h'
            · exact Or.inl h'
            · have : p = q := by simpa using h'
              subst this
              exact Or.inr ⟨i, pid, List.mem_cons_self _ _,
                le_of_not_lt hdist, hby⟩
          · exact Or.inr ⟨i', pid', List.mem_cons_of_mem _ hmem, hle, hby'⟩

/-! ## Claim theorems: retrieval -/

/-- Claim C1: for every query, catalog, topK and minScore the retrieval
search returns at most topK products and every returned product scored at
least minScore against the query embedding; in the indexed backend every
returned product was admitted at distance at most 1 - minScore
(minScore being the fixed relevance threshold 0.35 there).  Items below
the threshold are dropped regardless of how few results remain. -/
theorem search_topk_minscore (sim : Emb → Emb → ℚ) (query_emb : Emb)
    (precomputed : String → Option Emb) (catalog : List Product)
    (top_k : Nat) (min_score : ℚ) (ids_seen : List String)
    (distances : List ℚ) (metas : List (Option String)) :
    (search_products sim query_emb precomputed catalog top_k min_score).length ≤ top_k ∧
    (∀ p ∈ search_products sim query_emb precomputed catalog top_k min_score,
      ∃ emb, precomputed p.id = some emb ∧ min_score ≤ sim query_emb emb) ∧
    (search_chroma catalog top_k ids_seen distances metas).length ≤ top_k ∧
    (∀ p ∈ search_chroma catalog top_k ids_seen distances metas,
      ∃ i pid, (i, pid) ∈ ids_seen.enum ∧
        distAt distances i ≤ 1 - RELEVANCE_THRESHOLD ∧
        productById catalog (lookupKey pid (metaAt metas i)) = some p) := by
  refine ⟨?_, ?_, ?_, ?_⟩
  · rw [search_products_eq]
    simp only [List.length_map, List.length_take]
    exact min_le_left _ _
  · intro p hp
    rw [search_products_eq] at hp
    obtain ⟨x, hx, hxp⟩ := List.mem_map.mp hp
    have hx1 : x ∈ (catalog.filterMap
        (scoreEntry sim query_emb precomputed min_score)).mergeSort
        (fun a b => decide (b.1 ≤ a.1)) :=
      List.take_subset _ _ hx
    have hx2 := List.mem_mergeSort.mp hx1
    obtain ⟨q, hq, hfq⟩ := List.mem_filterMap.mp hx2
    obtain ⟨emb, hpre, hxval, hle⟩ := scoreEntry_eq_some hfq
    subst hxval
    cases hxp
    exact ⟨emb, hpre, hle⟩
  · unfold search_chroma
    simp only [List.length_take]
    exact min_le_left _ _
  · intro p hp
    unfold search_chroma at hp
    have hp1 := List.take_subset _ _ hp
    rcases chromaGo_mem_cases (productById catalog) top_k distances metas
        ids_seen.enum [] p hp1 with h | ⟨i, pid, hmem, hle, hby⟩
    · cases h
    · refine ⟨i, pid, hmem, ?_, hby⟩
      have : (1 : ℚ) - RELEVANCE_THRESHOLD = 13/20 := by
        norm_num [RELEVANCE_THRESHOLD]
      rw [this]
      exact hle

/-- Claim C2: the in-memory retrieval search returns products in
non-increasing order of similarity score, and for every score value the
equally-scored returned products form an in-order sublist of the catalog
(ties broken by catalog order, i.e. the sort is stable). -/
theorem search_sorted_stable (sim : Emb → Emb → ℚ) (query_emb : Emb)
    (precomputed : String → Option Emb) (catalog : List Product)
    (top_k : Nat) (min_score : ℚ) :
    (search_products sim query_emb precomputed catalog top_k min_score).Pairwise
      (fun a b => scoreOf sim query_emb precomputed b ≤
        scoreOf sim query_emb precomputed a) ∧
    ∀ c : ℚ, ((search_products sim query_emb precomputed catalog top_k
        min_score).filter
        (fun p => decide (scoreOf sim query_emb precomputed p = c))).Sublist
        catalog := by
  have htrans : ∀ (a b c : ℚ × Product),
      (fun a b : ℚ × Product => decide (b.1 ≤ a.1)) a b = true →
      (fun a b : ℚ × Product => decide (b.1 ≤ a.1)) b c = true →
      (fun a b : ℚ × Product => decide (b.1 ≤ a.1)) a c = true := by
    intro a b c hab hbc
    simp only [decide_eq_true_eq] at hab hbc ⊢
    exact le_trans hbc hab
  have htotal : ∀ (a b : ℚ × Product),
      ((fun a b : ℚ × Product => decide (b.1 ≤ a.1)) a b ||
       (fun a b : ℚ × Product => decide (b.1 ≤ a.1)) b a) = true := by
    intro a b
    simp only [Bool.or_eq_true, decide_eq_true_eq]
    exact le_total b.1 a.1
  set scored := catalog.filterMap
    (scoreEntry sim query_emb precomputed min_score) with hscored
  set sorted := scored.mergeSort (fun a b => decide (b.1 ≤ a.1)) with hsorted
  have hmem_sorted : ∀ x ∈ sorted.take top_k, x ∈ scored := by
    intro x hx
    exact List.mem_mergeSort.mp (List.take_subset _ _ hx)
  constructor
  · rw [search_products_eq, List.pairwise_map]
    have h1 : (sorted.take top_k).Pairwise
        (fun a b : ℚ × Product => decide (b.1 ≤ a.1) = true) :=
      List.Pairwise.sublist (List.take_sublist _ _)
        (List.sorted_mergeSort htrans htotal scored)
    refine h1.imp_of_mem ?_
    intro a b ha hb hr
    have hfa := (mem_scored (hmem_sorted a ha)).1
    have hfb := (mem_scored (hmem_sorted b hb)).1
    simp only [decide_eq_true_eq] at hr
    rw [← hfa, ← hfb]
    exact hr
  · intro c
    set P : ℚ × Product → Bool := fun x => decide (x.1 = c) with hP
    have hps : (scored.filter P).Pairwise
        (fun a b : ℚ × Product => decide (b.1 ≤ a.1) = true) := by
      apply List.pairwise_of_forall_mem_list
      intro a ha b hb
      have ha' := (List.mem_filter.mp ha).2
      have hb' := (List.mem_filter.mp hb).2
      simp only [hP, decide_eq_true_eq] at ha' hb' ⊢
      rw [ha', hb']
    have hsubsort : (scored.filter P).Sublist sorted :=
      List.sublist_mergeSort htrans htotal hps (List.filter_sublist scored)
    have hperm : ((sorted.filter P)).Perm (scored.filter P) :=
      (List.mergeSort_perm scored _).filter P
    have hsub2 : (scored.filter P).Sublist (sorted.filter P) := by
      have h1 := hsubsort.filter P
      rwa [List.filter_eq_self.mpr
        (fun a ha => (List.mem_filter.mp ha).2)] at h1
    have heq : sorted.filter P = scored.filter P :=
      ((hsub2.eq_of_length hperm.length_eq.symm)).symm
    rw [search_products_eq, List.filter_map]
    have hcongr : (sorted.take top_k).filter
        ((fun p => decide (scoreOf sim query_emb precomputed p = c)) ∘
          (fun x : ℚ × Product => x.2)) =
        (sorted.take top_k).filter P := by
      apply List.filter_congr
      intro x hx
      have hfx := (mem_scored (hmem_sorted x hx)).1
      simp only [Function.comp_apply, hP, ← hfx]
    rw [hcongr]
    have htake : ((sorted.take top_k).filter P).Sublist (scored.filter P) := by
      have := (List.take_sublist top_k sorted).filter P
      rwa [heq] at this
    have hchain : ((sorted.take top_k).filter P).Sublist scored :=
      htake.trans (List.filter_sublist scored)
    have hmap := hchain.map (fun x : ℚ × Product => x.2)
    refine hmap.trans ?_
    apply map_snd_filterMap_sublist
    intro a x hax
    obtain ⟨emb, _, hxval, _⟩ := scoreEntry_eq_some hax
    rw [hxval]

/-- Claim C8: a catalog item whose id has no entry in the precomputed
table is excluded from the in-memory ranking entirely (never scored as
zero, never an error): the search result over the full catalog equals the
result over the catalog restricted to items with a precomputed vector,
so all other items are ranked as usual. -/
theorem missing_vector_skipped (sim : Emb → Emb → ℚ) (query_emb : Emb)
    (precomputed : String → Option Emb) (catalog : List Product)
    (top_k : Nat) (min_score : ℚ) :
    search_products sim query_emb precomputed catalog top_k min_score =
      search_products sim query_emb precomputed
        (catalog.filter (fun p => (precomputed p.id).isSome))
        top_k min_score := by
  rw [search_products_eq, search_products_eq]
  rw [← filterMap_eq_filterMap_filter]
  intro p hp
  apply scoreEntry_eq_none
  cases hpre : precomputed p.id with
  | none => rfl
  | some emb => rw [hpre] at hp; cases hp

/-- Witness for C1 at concrete inputs: one catalog item, similarity 1,
threshold 0, and one index hit at distance 0. -/
theorem search_topk_minscore_witness :
    (∃ emb, (fun _ : String => some ([1] : Emb)) (Product.mk "a" "A").id = some emb ∧
      (0:ℚ) ≤ (fun (_ _ : Emb) => (1:ℚ)) ([1] : Emb) emb) ∧
    (∃ i pid, (i, pid) ∈ (["a"] : List String).enum ∧
      distAt [0] i ≤ 1 - RELEVANCE_THRESHOLD ∧
      productById [⟨"a", "A"⟩] (lookupKey pid (metaAt [none] i)) =
        some ⟨"a", "A"⟩) := by
  have h := search_topk_minscore (fun _ _ => 1) [1] (fun _ => some [1])
    [⟨"a", "A"⟩] 5 0 ["a"] [0] [none]
  constructor
  · exact h.2.1 ⟨"a", "A"⟩ (by rw [search_products_eq]; simp [scoreEntry])
  · apply h.2.2.2
    unfold search_chroma
    norm_num [chromaGo, distAt, metaAt, lookupKey, productById, List.enum,
      List.enumFrom, List.find?, List.filter]

/-! ## Claim theorems: agent heuristics -/

/-- Claim C3: on a non-follow-up search turn, a query containing a comma
and (case-insensitively) one of the question words, whose stripped text
before the first comma is longer than 10 characters, is replaced by
exactly that prefix; otherwise the query is unchanged.  The concrete
compound question about headphones reduces to its first clause. -/
theorem comma_heuristic :
    (∀ q : List Char, OccursIn [','] q →
      (∃ w ∈ questionWords, OccursIn w (toLowerChars q)) →
      10 < (trimChars (beforeChar ',' q)).length →
      refineQuery q = trimChars (beforeChar ',' q)) ∧
    (∀ q : List Char,
      ¬ (OccursIn [','] q ∧
         (∃ w ∈ questionWords, OccursIn w (toLowerChars q)) ∧
         10 < (trimChars (beforeChar ',' q)).length) →
      refineQuery q = q) ∧
    refineQuery ("how do these headphones sound, also are they waterproof".toList) =
      "how do these headphones sound".toList := by
  have hcond : ∀ q : List Char,
      (containsSub [','] q
        && questionWords.any (fun w => containsSub w (toLowerChars q))) = true ↔
      (OccursIn [','] q ∧ ∃ w ∈ questionWords, OccursIn w (toLowerChars q)) := by
    intro q
    rw [Bool.and_eq_true, containsSub_iff, List.any_eq_true]
    constructor
    · rintro ⟨h1, w, hw, hcw⟩
      exact ⟨h1, w, hw, (containsSub_iff _ _).mp hcw⟩
    · rintro ⟨h1, w, hw, hcw⟩
      exact ⟨h1, w, hw, (containsSub_iff _ _).mpr hcw⟩
  refine ⟨?_, ?_, ?_⟩
  · intro q h1 h2 h3
    unfold refineQuery
    rw [if_pos ((hcond q).mpr ⟨h1, h2⟩)]
    simp only [if_pos h3]
  · intro q hn
    unfold refineQuery
    by_cases hb : (containsSub [','] q
        && questionWords.any (fun w => containsSub w (toLowerChars q))) = true
    · rw [if_pos hb]
      obtain ⟨h1, h2⟩ := (hcond q).mp hb
      have h3 : ¬ 10 < (trimChars (beforeChar ',' q)).length :=
        fun hlt => hn ⟨h1, h2, hlt⟩
      simp only [if_neg h3]
    · rw [if_neg hb]
  · decide

/-- Witness for C3: the concrete compound query satisfies the comma, the
question-word and the length conditions, and is replaced by its stripped
first clause. -/
theorem comma_heuristic_witness :
    refineQuery ("how do these headphones sound, also are they waterproof".toList) =
      trimChars (beforeChar ','
        ("how do these headphones sound, also are they waterproof".toList)) :=
  comma_heuristic.1 _ ((containsSub_iff _ _).mp (by decide))
    ⟨"how".toList, by decide, (containsSub_iff _ _).mp (by decide)⟩
    (by decide)

/-- Claim C4 (amended): on a SEARCH turn without an image whose message
is detected as a follow-up, the retrieval engine is bypassed (the result
is the same for every search function) and the first five previously
stored products are returned in their stored order — the whole stored
list exactly when it has at most five items. -/
theorem follow_up_first_five (searchFn : List Char → List Product)
    (message image_desc : List Char) (previous_products : List Product)
    (h : is_follow_up message previous_products = true) :
    selectProducts searchFn message false image_desc previous_products =
      previous_products.take 5 := by
  unfold selectProducts
  simp [h]

/-- Claim C4 as stated fails on the code: with six cached products, the
follow-up message `compare them` returns only the first five of them,
not the whole cached product list. -/
theorem follow_up_counterexample :
    ¬ (selectProducts (fun _ => []) ("compare them".toList) false []
        [⟨"1", ""⟩, ⟨"2", ""⟩, ⟨"3", ""⟩, ⟨"4", ""⟩, ⟨"5", ""⟩, ⟨"6", ""⟩] =
       [⟨"1", ""⟩, ⟨"2", ""⟩, ⟨"3", ""⟩, ⟨"4", ""⟩, ⟨"5", ""⟩, ⟨"6", ""⟩]) := by
  decide

/-- Witness for the amended C4 at a concrete follow-up turn. -/
theorem follow_up_first_five_witness :
    selectProducts (fun _ => []) ("compare them".toList) false []
        [⟨"1", ""⟩, ⟨"2", ""⟩, ⟨"3", ""⟩, ⟨"4", ""⟩, ⟨"5", ""⟩, ⟨"6", ""⟩] =
      List.take 5
        [⟨"1", ""⟩, ⟨"2", ""⟩, ⟨"3", ""⟩, ⟨"4", ""⟩, ⟨"5", ""⟩, ⟨"6", ""⟩] :=
  follow_up_first_five _ _ _ _ (by decide)

/-- Claim C5: with an image the intent is IMAGE_SEARCH unconditionally
and independently of the classifier; without an image the intent is
SEARCH exactly when the case-folded classifier reply contains the
substring SEARCH anywhere, and CHAT otherwise. -/
theorem intent_classification (reply reply2 : List Char → List Char)
    (message : List Char) :
    (detect_intent reply message true = Intent.IMAGE_SEARCH) ∧
    (detect_intent reply message true = detect_intent reply2 message true) ∧
    ((detect_intent reply message false = Intent.SEARCH) ↔
      OccursIn "SEARCH".toList
        (toUpperChars (reply
          (if message.isEmpty then "hello".toList else message)))) ∧
    ((detect_intent reply message false = Intent.SEARCH) ∨
      (detect_intent reply message false = Intent.CHAT)) := by
  have hkey : containsSub "SEARCH".toList
      (trimChars (toUpperChars (reply
        (if message.isEmpty then "hello".toList else message)))) =
      containsSub "SEARCH".toList
        (toUpperChars (reply
          (if message.isEmpty then "hello".toList else message))) :=
    containsSub_trimChars (by decide) (by decide) _
  refine ⟨rfl, rfl, ?_, ?_⟩
  · unfold detect_intent
    simp only [Bool.false_eq_true, if_false]
    rw [hkey, ← containsSub_iff]
    cases hb : containsSub "SEARCH".toList
        (toUpperChars (reply
          (if message.isEmpty then "hello".toList else message))) with
    | true => simp [hb]
    | false => simp [hb]
  · unfold detect_intent
    simp only [Bool.false_eq_true, if_false]
    cases hb : containsSub "SEARCH".toList
        (trimChars (toUpperChars (reply
          (if message.isEmpty then "hello".toList else message)))) with
    | true => simp [hb]
    | false => simp [hb]

/-! ## Session store lemmas -/

theorem lastN_append {α : Type} (n : Nat) (l l2 : List α) :
    lastN n (lastN n l ++ l2) = lastN n (l ++ l2) := by
  by_cases h : l.length ≤ n
  · have h0 : l.length - n = 0 := Nat.sub_eq_zero_of_le h
    simp [lastN, h0]
  · unfold lastN
    rw [List.length_append, List.length_append, List.length_drop]
    have e0 : l.length - (l.length - n) = n := by omega
    have e1 : n + l2.length - n = l2.length := by omega
    have e2 : l.length + l2.length - n = (l.length - n) + l2.length := by omega
    rw [e0, e1, e2]
    conv_rhs => rw [← List.drop_drop,
      List.drop_append_of_le_length (show l.length - n ≤ l.length by omega)]

theorem length_lastN {α : Type} (n : Nat) (l : List α) :
    (lastN n l).length = l.length - (l.length - n) := by
  simp [lastN]

theorem isEmpty_false_of_ne_nil {α : Type} {l : List α} (h : l ≠ []) :
    l.isEmpty = false := by
  cases l with
  | nil => exact absurd rfl h
  | cons a l => rfl

theorem update_session_registered (store : Store) (sid : List Char)
    (u a : Option String) (ps : Option (List Product)) (s : SessionState)
    (hsid : sid ≠ []) (hreg : store sid = some s) :
    (update_session store sid u a ps) sid = some
      { messages := lastN MAX_MESSAGES
          ((s.messages ++ (u.map (fun x => ChatMsg.mk "user" x)).toList) ++
            (a.map (fun x => ChatMsg.mk "assistant" x)).toList)
        products := match ps with
          | some l => l.take MAX_PRODUCTS
          | none => s.products } := by
  unfold update_session
  rw [if_neg (by rw [isEmpty_false_of_ne_nil hsid]; exact Bool.false_ne_true)]
  rw [hreg]
  simp

theorem pairMsgs_succ (f : Nat → String × String) (n : Nat) :
    pairMsgs f (n + 1) = pairMsgs f n ++
      [ChatMsg.mk "user" (f n).1, ChatMsg.mk "assistant" (f n).2] := by
  unfold pairMsgs
  rw [List.range_succ, List.flatMap_append]
  simp

theorem pairMsgs_length (f : Nat → String × String) :
    ∀ n, (pairMsgs f n).length = 2 * n := by
  intro n
  induction n with
  | zero => rfl
  | succ n ih =>
    rw [pairMsgs_succ, List.length_append, ih]
    simp
    omega

theorem iterPairUpdates_spec (store : Store) (sid : List Char)
    (f : Nat → String × String) (ps : List Product)
    (hsid : sid ≠ []) (h0 : store sid = some ⟨[], ps⟩) :
    ∀ n, (iterPairUpdates store sid f n) sid =
      some ⟨lastN MAX_MESSAGES (pairMsgs f n), ps⟩ := by
  intro n
  induction n with
  | zero =>
    simpa [iterPairUpdates, pairMsgs, lastN] using h0
  | succ n ih =>
    rw [iterPairUpdates,
      update_session_registered _ _ _ _ _ _ hsid ih]
    rw [pairMsgs_succ]
    congr 1
    simp only [Option.map_some, Option.toList_some]
    rw [List.append_assoc, lastN_append]
    rfl

/-! ## Claim theorems: session store -/

/-- Claim C6: for a registered session, update appends the supplied user
turn and then the supplied assistant turn to the history and truncates it
to the most recent MAX_MESSAGES = 20 entries (oldest dropped first);
after 25 sequential user/assistant pair updates on an initially empty
history the stored history has length exactly 20 and is precisely the
most recent messages in order (the full pair log with its first 30
entries dropped). -/
theorem history_cap (store : Store) (sid : List Char)
    (f : Nat → String × String) (ps : List Product)
    (hsid : sid ≠ []) (h0 : store sid = some ⟨[], ps⟩) :
    (∀ (store2 : Store) (sid2 : List Char) (u a : Option String)
        (prods : Option (List Product)) (s2 : SessionState),
        sid2 ≠ [] → store2 sid2 = some s2 →
        ((update_session store2 sid2 u a prods) sid2).map SessionState.messages =
          some (lastN MAX_MESSAGES
            ((s2.messages ++ (u.map (fun x => ChatMsg.mk "user" x)).toList) ++
              (a.map (fun x => ChatMsg.mk "assistant" x)).toList))) ∧
    (iterPairUpdates store sid f 25) sid =
      some ⟨lastN MAX_MESSAGES (pairMsgs f 25), ps⟩ ∧
    (lastN MAX_MESSAGES (pairMsgs f 25)).length = 20 ∧
    lastN MAX_MESSAGES (pairMsgs f 25) = (pairMsgs f 25).drop 30 := by
  have hlen : (pairMsgs f 25).length = 50 := pairMsgs_length f 25
  refine ⟨?_, iterPairUpdates_spec store sid f ps hsid h0 25, ?_, ?_⟩
  · intro store2 sid2 u a prods s2 hsid2 hreg2
    rw [update_session_registered store2 sid2 u a prods s2 hsid2 hreg2]
    rfl
  · rw [length_lastN, hlen]
    decide
  · unfold lastN
    rw [hlen]
    rw [show 50 - MAX_MESSAGES = 30 by decide]

/-- Witness for C6 at a concrete one-session store and constant message
pairs. -/
theorem history_cap_witness :
    (iterPairUpdates
        (fun s => if s = ['x'] then some ⟨[], []⟩ else none) ['x']
        (fun _ => ("u", "a")) 25) ['x'] =
      some ⟨lastN MAX_MESSAGES (pairMsgs (fun _ => ("u", "a")) 25), []⟩ ∧
    (lastN MAX_MESSAGES (pairMsgs (fun _ => ("u", "a")) 25)).length = 20 :=
  have h := history_cap
    (fun s => if s = ['x'] then some ⟨[], []⟩ else none) ['x']
    (fun _ => ("u", "a")) [] (by decide) (by simp)
  ⟨h.2.1, h.2.2.1⟩

/-- Claim C7: for a registered session, update with a supplied product
list replaces the stored products by the first MAX_PRODUCTS = 10 items of
the supplied list in order, and update without a product list leaves the
stored products unchanged. -/
theorem products_replace (store : Store) (sid : List Char)
    (u a : Option String) (s : SessionState)
    (hsid : sid ≠ []) (hreg : store sid = some s) :
    (∀ ps : List Product,
      ((update_session store sid u a (some ps)) sid).map SessionState.products =
        some (ps.take MAX_PRODUCTS)) ∧
    ((update_session store sid u a none) sid).map SessionState.products =
      some s.products := by
  constructor
  · intro ps
    rw [update_session_registered store sid u a (some ps) s hsid hreg]
    rfl
  · rw [update_session_registered store sid u a none s hsid hreg]
    rfl

/-- Witness for C7: a 15-item product list is stored as exactly its first
10 items. -/
theorem products_replace_witness :
    ((update_session (fun s => if s = ['x'] then some ⟨[], []⟩ else none)
        ['x'] none none (some (List.replicate 15 ⟨"p", ""⟩))) ['x']).map
      SessionState.products =
      some ((List.replicate 15 (⟨"p", ""⟩ : Product)).take MAX_PRODUCTS) :=
  (products_replace _ ['x'] none none ⟨[], []⟩ (by decide) (by simp)).1 _

/-- Claim C9: getOrCreate never fails.  A blank (empty after stripping)
or missing id mints the fresh id and registers an empty state under it; a
registered id returns its stored state and leaves the store unchanged; an
unknown non-blank id registers a fresh empty state under the stripped id
instead of rejecting it. -/
theorem get_or_create_never_fails (fresh_id : List Char) (store : Store)
    (session_id : Option (List Char)) :
    ((trimChars (session_id.getD [])).isEmpty = true →
      get_or_create_session fresh_id store session_id =
        (fresh_id, emptyState,
          fun s => if s = fresh_id then some emptyState else store s)) ∧
    (∀ st, (trimChars (session_id.getD [])).isEmpty = false →
      store (trimChars (session_id.getD [])) = some st →
      get_or_create_session fresh_id store session_id =
        (trimChars (session_id.getD []), st, store)) ∧
    ((trimChars (session_id.getD [])).isEmpty = false →
      store (trimChars (session_id.getD [])) = none →
      get_or_create_session fresh_id store session_id =
        (trimChars (session_id.getD []), emptyState,
          fun s => if s = trimChars (session_id.getD []) then some emptyState
            else store s)) := by
  have hne : (trimChars (session_id.getD [])).isEmpty = false →
      (session_id.getD []).isEmpty = false := by
    intro h1
    cases hx : session_id.getD [] with
    | nil =>
      rw [hx] at h1
      cases h1
    | cons c l => rfl
  refine ⟨?_, ?_, ?_⟩
  · intro h1
    unfold get_or_create_session
    rw [if_pos (by rw [h1, Bool.or_true])]
  · intro st h1 h2
    unfold get_or_create_session
    rw [if_neg (by rw [h1, hne h1, Bool.or_false]; exact Bool.false_ne_true)]
    simp only [h2]
  · intro h1 h2
    unfold get_or_create_session
    rw [if_neg (by rw [h1, hne h1, Bool.or_false]; exact Bool.false_ne_true)]
    simp only [h2]

/-- Witness for C9: the three branches at a concrete one-session store. -/
theorem get_or_create_never_fails_witness :
    (get_or_create_session ['f']
        (fun s => if s = ['k'] then some ⟨[], []⟩ else none) none =
      (['f'], emptyState,
        fun s => if s = ['f'] then some emptyState
          else (fun s => if s = ['k'] then some ⟨[], []⟩ else none) s)) ∧
    (get_or_create_session ['f']
        (fun s => if s = ['k'] then some ⟨[], []⟩ else none) (some ['k']) =
      (trimChars ['k'], ⟨[], []⟩,
        fun s => if s = ['k'] then some ⟨[], []⟩ else none)) ∧
    (get_or_create_session ['f']
        (fun s => if s = ['k'] then some ⟨[], []⟩ else none) (some ['z']) =
      (trimChars ['z'], emptyState,
        fun s => if s = trimChars ['z'] then some emptyState
          else (fun s => if s = ['k'] then some ⟨[], []⟩ else none) s)) :=
  ⟨(get_or_create_never_fails ['f'] _ none).1 (by decide),
   (get_or_create_never_fails ['f'] _ (some ['k'])).2.1 ⟨[], []⟩
     (by decide) (by decide),
   (get_or_create_never_fails ['f'] _ (some ['z'])).2.2 (by decide) (by decide)⟩

/-- Claim C10: update on an empty or unregistered session id is a
complete no-op: the whole store is returned unchanged (so no session is
created and the supplied messages and products are discarded). -/
theorem update_unregistered_noop (store : Store) (sid : List Char)
    (u a : Option String) (ps : Option (List Product))
    (h : sid = [] ∨ store sid = none) :
    update_session store sid u a ps = store := by
  unfold update_session
  rcases h with rfl | hnone
  · rfl
  · rw [hnone]
    split
    · rfl
    · rfl

/-- Witness for C10 on a concrete empty store. -/
theorem update_unregistered_noop_witness :
    update_session (fun _ => none) ['x'] (some "u") (some "v") (some []) =
      (fun _ => none) :=
  update_unregistered_noop (fun _ => none) ['x'] (some "u") (some "v")
    (some []) (Or.inr rfl)

end Palona
